import Mathlib

/-!
Verification of the delivery-route preparation pipeline
(address normalization, row grouping, AI batch correction,
geocode validation) against its natural-language specification.

The TypeScript/JavaScript sources are shallowly embedded:
strings are `String`/`List Char`, JS falsiness of strings is
modelled by emptiness, network calls are abstracted into explicit
outcome values fed to the (otherwise pure) request handlers, and
machine floats are idealized as real numbers for the Haversine
distance.  Each definition mirrors one function of the source.
-/

/-! ## JavaScript text primitives

The JS `\s` character class (used by `String.trim` and by the
`/\s+/g` collapse in the sources): space, tab, LF, VT, FF, CR,
NBSP, and the Unicode space separators. -/

def isJsSpace (c : Char) : Bool :=
  c == ' ' || c == '\t' || c == '\n' || c.toNat == 11 || c.toNat == 12 || c == '\r' ||
  c.toNat == 0xa0 || c.toNat == 0x1680 ||
  (decide (0x2000 ≤ c.toNat) && decide (c.toNat ≤ 0x200a)) ||
  c.toNat == 0x2028 || c.toNat == 0x2029 || c.toNat == 0x202f || c.toNat == 0x205f ||
  c.toNat == 0x3000 || c.toNat == 0xfeff

/-- JS `String.prototype.trim`: drop `\s` characters from both ends. -/
def trimWs (cs : List Char) : List Char :=
  List.rdropWhile isJsSpace (cs.dropWhile isJsSpace)

/-- JS `.replace(/\s+/g, ' ')`: collapse each maximal run of `\s`
characters into a single space. -/
def collapseWs : List Char → List Char
  | [] => []
  | [c] => if isJsSpace c then [' '] else [c]
  | c1 :: c2 :: rest =>
    if isJsSpace c1 && isJsSpace c2 then collapseWs (c2 :: rest)
    else (if isJsSpace c1 then ' ' else c1) :: collapseWs (c2 :: rest)

/-- The cleanup step of `normalizeAddress` in the upload page
(`part_000`): `address.trim().replace(/\s+/g, ' ')`. -/
def cleanChars (cs : List Char) : List Char := collapseWs (trimWs cs)

/-- JS `s.trim()` on a `String`. -/
def jsTrim (s : String) : String := String.mk (trimWs s.data)

/-- JS `a || b` on strings (empty string is falsy). -/
def jsOr (a b : String) : String := if a = "" then b else a

/-- JS `s.includes(sub)`: substring test. -/
def jsIncludes (s sub : String) : Bool := decide (sub.data <:+: s.data)

/-! ## normalizeAddress (upload page, `part_000` lines 153-166)

The grouping key extractor: after whitespace cleanup it matches the
regex `^(.+?[,\s]+\d+)` and returns the trimmed match, falling back
to the whole cleaned string.  The regex is embedded directly: a lazy
non-empty prefix of `.` characters, then one or more `[,\s]`, then
one or more digits.  Since the separator class `[,\s]` and the digit
class `\d` are disjoint, the greedy `[,\s]+\d+` suffix needs no
backtracking and is exactly takeWhile/takeWhile. -/

def isSepChar (c : Char) : Bool := c == ',' || isJsSpace c

def isDigitChar (c : Char) : Bool := c.isDigit

/-- JS `.` (without the `s` flag): any character except a line
terminator. -/
def isDotChar (c : Char) : Bool :=
  !(c == '\n' || c == '\r' || c.toNat == 0x2028 || c.toNat == 0x2029)

/-- Match `[,\s]+\d+` at the start of `cs`, returning the consumed
characters (greedy; exact because the two classes are disjoint). -/
def sepDigits (cs : List Char) : Option (List Char) :=
  let seps := cs.takeWhile isSepChar
  let digs := (cs.dropWhile isSepChar).takeWhile isDigitChar
  if seps.isEmpty || digs.isEmpty then none else some (seps ++ digs)

/-- Match `^(.+?[,\s]+\d+)` against `cs`: the lazy `.+?` tries the
shortest possible prefix first.  `pre` accumulates the prefix
consumed so far. -/
def matchStreetNum (pre : List Char) : List Char → Option (List Char)
  | [] => none
  | c :: rest =>
    if isDotChar c then
      match sepDigits rest with
      | some consumed => some ((pre ++ [c]) ++ consumed)
      | none => matchStreetNum (pre ++ [c]) rest
    else none

/-- The `normalizeAddress` function from the upload page: extract "street + number",
ignoring complements; fall back to the cleaned address. -/
def normalizeAddress (address : String) : String :=
  let cleaned := cleanChars address.data
  match matchStreetNum [] cleaned with
  | some m => String.mk (trimWs m)
  | none => String.mk cleaned

/-! ## Row grouping (upload page, `part_000` lines 168-196) -/

/-- One spreadsheet row, restricted to the fields the grouping step
touches: the stringified address cell, the stringified sequence cell,
and `rest`, an opaque identifier standing for all remaining column
values (which are copied wholesale from the first row of a group). -/
structure SheetRow where
  addr : String
  seq : String
  rest : Nat
deriving DecidableEq

/-- The grouping key of a row:
`normalizeAddress(String(row[addressColumn] || '').trim())`. -/
def groupKey (row : SheetRow) : String := normalizeAddress (jsTrim row.addr)

/-- Source `grouped[key].push(row)`, creating the bucket on first sight
(JS object update; the key's bucket is unique). -/
def insertRow : List (String × List SheetRow) → String → SheetRow → List (String × List SheetRow)
  | [], key, row => [(key, [row])]
  | (k, b) :: restBuckets, key, row =>
    if k = key then (k, b ++ [row]) :: restBuckets
    else (k, b) :: insertRow restBuckets key row

/-- The `jsonData.forEach` bucketing loop. -/
def groupRows (rows : List SheetRow) : List (String × List SheetRow) :=
  rows.foldl (fun acc row => insertRow acc (groupKey row) row) []

/-- Merging one bucket (`Object.entries(grouped).map` body): clone the
first row; when a sequence column is known, overwrite its value with
`rows.map(r => String(r[sequenceColumn] || '')).filter(s => s && s.trim() !== '').join('; ')`. -/
def mergeGroup (hasSeqCol : Bool) (bucket : List SheetRow) : SheetRow :=
  let firstRow := bucket.headD ⟨"", "", 0⟩
  if hasSeqCol then
    { firstRow with
      seq := String.intercalate "; "
        ((bucket.map SheetRow.seq).filter (fun s => !(s == "") && !(jsTrim s == ""))) }
  else firstRow

/-- The grouping stage of `processFile`: bucket all rows, then merge
each bucket. -/
def processFileGroups (hasSeqCol : Bool) (rows : List SheetRow) : List SheetRow :=
  (groupRows rows).map (fun kv => mergeGroup hasSeqCol kv.2)

example : normalizeAddress "Rua Justo de Morais, 21, Casa" = "Rua Justo de Morais, 21" := by decide

example : normalizeAddress "Rua A, 10, Apto 2" = normalizeAddress "Rua A, 10, Casa" := by decide

example : normalizeAddress "Rua A, 10" ≠ normalizeAddress "Rua A, 100" := by decide

/-! ## normalizeText (batch-geocode function, lines 15-26)

Accent stripping (`normalize("NFD")` + removal of U+0300..U+036F),
ASCII lowercasing, ordered-alternation word replacements, a character
filter and whitespace collapsing.  The NFD decomposition is embedded
for the Latin letters with acute, grave, circumflex, tilde and
diaeresis accents and the cedilla (the repertoire of the Brazilian
address data this function receives); other characters decompose to
themselves. -/

def nfdChar (c : Char) : List Char :=
  match c with
  | 'á' => ['a', Char.ofNat 0x301] | 'à' => ['a', Char.ofNat 0x300]
  | 'â' => ['a', Char.ofNat 0x302] | 'ã' => ['a', Char.ofNat 0x303]
  | 'ä' => ['a', Char.ofNat 0x308]
  | 'é' => ['e', Char.ofNat 0x301] | 'è' => ['e', Char.ofNat 0x300]
  | 'ê' => ['e', Char.ofNat 0x302] | 'ë' => ['e', Char.ofNat 0x308]
  | 'í' => ['i', Char.ofNat 0x301] | 'ì' => ['i', Char.ofNat 0x300]
  | 'î' => ['i', Char.ofNat 0x302] | 'ï' => ['i', Char.ofNat 0x308]
  | 'ó' => ['o', Char.ofNat 0x301] | 'ò' => ['o', Char.ofNat 0x300]
  | 'ô' => ['o', Char.ofNat 0x302] | 'õ' => ['o', Char.ofNat 0x303]
  | 'ö' => ['o', Char.ofNat 0x308]
  | 'ú' => ['u', Char.ofNat 0x301] | 'ù' => ['u', Char.ofNat 0x300]
  | 'û' => ['u', Char.ofNat 0x302] | 'ü' => ['u', Char.ofNat 0x308]
  | 'ç' => ['c', Char.ofNat 0x327] | 'ñ' => ['n', Char.ofNat 0x303]
  | 'Á' => ['A', Char.ofNat 0x301] | 'À' => ['A', Char.ofNat 0x300]
  | 'Â' => ['A', Char.ofNat 0x302] | 'Ã' => ['A', Char.ofNat 0x303]
  | 'Ä' => ['A', Char.ofNat 0x308]
  | 'É' => ['E', Char.ofNat 0x301] | 'È' => ['E', Char.ofNat 0x300]
  | 'Ê' => ['E', Char.ofNat 0x302] | 'Ë' => ['E', Char.ofNat 0x308]
  | 'Í' => ['I', Char.ofNat 0x301] | 'Ì' => ['I', Char.ofNat 0x300]
  | 'Î' => ['I', Char.ofNat 0x302] | 'Ï' => ['I', Char.ofNat 0x308]
  | 'Ó' => ['O', Char.ofNat 0x301] | 'Ò' => ['O', Char.ofNat 0x300]
  | 'Ô' => ['O', Char.ofNat 0x302] | 'Õ' => ['O', Char.ofNat 0x303]
  | 'Ö' => ['O', Char.ofNat 0x308]
  | 'Ú' => ['U', Char.ofNat 0x301] | 'Ù' => ['U', Char.ofNat 0x300]
  | 'Û' => ['U', Char.ofNat 0x302] | 'Ü' => ['U', Char.ofNat 0x308]
  | 'Ç' => ['C', Char.ofNat 0x327] | 'Ñ' => ['N', Char.ofNat 0x303]
  | _ => [c]

/-- JS `\w`: ASCII word characters. -/
def isWordChar (c : Char) : Bool :=
  (decide ('a' ≤ c) && decide (c ≤ 'z')) || (decide ('A' ≤ c) && decide (c ≤ 'Z')) ||
  (decide ('0' ≤ c) && decide (c ≤ '9')) || c == '_'

def wordAt : Option Char → Bool
  | none => false
  | some c => isWordChar c

/-- JS `\b`: a word boundary sits between two positions whose
word-character status differs (out-of-string counts as non-word). -/
def isBoundary (a b : Option Char) : Bool := wordAt a != wordAt b

/-- Does `alt`, matched as a literal prefix of `cs`, satisfy the
trailing `\b` of the replacement patterns? -/
def rightBoundaryOk (alt cs : List Char) : Bool :=
  isBoundary alt.getLast? ((cs.drop alt.length).head?)

/-- Ordered alternation at one position: the first literal that is a
prefix of `cs` and satisfies the trailing `\b` (JS alternatives are
tried left to right). -/
def altMatchAt (alts : List (List Char)) (cs : List Char) : Option (List Char) :=
  alts.find? (fun alt => alt.isPrefixOf cs && rightBoundaryOk alt cs)

/-- Global regex replace, scanning left to right; after a match the
scan resumes past the matched characters of the original string
(`lastIndex` semantics).  `prev` is the original character preceding
the current position, for `\b` checks; `fuel` bounds the recursion
and is always at least the remaining length. -/
def replaceScanGo (alts : List (List Char)) (useLeftB : Bool) (repl : List Char) :
    Nat → Option Char → List Char → List Char
  | 0, _, cs => cs
  | _, _, [] => []
  | fuel + 1, prev, c :: rest =>
    let leftOk := !useLeftB || isBoundary prev (some c)
    match (if leftOk then altMatchAt alts (c :: rest) else none) with
    | some alt =>
      repl ++ replaceScanGo alts useLeftB repl fuel alt.getLast? (List.drop (alt.length - 1) rest)
    | none => c :: replaceScanGo alts useLeftB repl fuel (some c) rest

/-- JS `.replace(/(alt1|alt2|...)\b/g, repl)`, optionally with a
leading `\b` (`useLeftB`). -/
def replaceScan (alts : List (List Char)) (useLeftB : Bool) (repl : List Char)
    (cs : List Char) : List Char :=
  replaceScanGo alts useLeftB repl cs.length none cs

def avAlts : List (List Char) := ["av".data, "av.".data, "avenida".data]

def ruaAlts : List (List Char) := ["r".data, "r.".data]

def rodAlts : List (List Char) := ["rod".data, "rod.".data, "rodovia".data]

def noiseAlts : List (List Char) :=
  ["proximo a".data, "proximo".data, "próximo a".data, "perto de".data,
   "em frente ao".data, "ao lado de".data]

/-- Characters kept by `.replace(/[^\w\s\-\,]/g, "")`. -/
def keepChar (c : Char) : Bool := isWordChar c || isJsSpace c || c == '-' || c == ','

/-- The `normalizeText` function from the batch-geocode function.  `Char.toLower`
is the ASCII lowercasing (accents have been stripped by this point). -/
def normalizeText (s : String) : String :=
  if s = "" then ""
  else
    let noAccents := (s.data.flatMap nfdChar).filter
      (fun c => !(decide (0x300 ≤ c.toNat) && decide (c.toNat ≤ 0x36f)))
    let lowered := noAccents.map Char.toLower
    let r1 := replaceScan avAlts false "avenida".data lowered
    let r2 := replaceScan ruaAlts true "rua".data r1
    let r3 := replaceScan rodAlts false "rodovia".data r2
    let r4 := replaceScan noiseAlts true [] r3
    String.mk (trimWs (collapseWs (r4.filter keepChar)))

example : normalizeText "Av. Brasil" = "avenida brasil" := by decide

example : normalizeText "São Gonçalo" = "sao goncalo" := by decide

/-! ## addressMatchesExpected (batch-geocode function, lines 85-113)

The locality validation.  The three sub-checks are factored out
exactly as the source's `cityMatches`/`stateMatches`/`bairroMatches`
local bindings; they receive the already-normalized strings.  JS
truthiness of strings is emptiness, so e.g. the source expression
`expCity && gCity && (...)` becomes the conjunction below. -/

structure NominatimAddressDetails where
  city : String
  town : String
  village : String
  county : String
  suburb : String
  neighbourhood : String
  state : String
deriving DecidableEq

structure ExpectedAddressDetails where
  bairro : String
  cidade : String
  estado : String
deriving DecidableEq

def emptyDetails : NominatimAddressDetails := ⟨"", "", "", "", "", "", ""⟩

/-- Source: `expCity && gCity && (gCity.includes(expCity) || expCity.includes(gCity))`. -/
def cityMatchesOf (gCity expCity : String) : Bool :=
  !(expCity == "") && !(gCity == "") && (jsIncludes gCity expCity || jsIncludes expCity gCity)

/-- Source: `(!expState) || (gState && (gState.includes(expState) || expState.includes(expState)))`.
Note the self-referential second disjunct, kept as written. -/
def stateMatchesOf (gState expState : String) : Bool :=
  (expState == "") || (!(gState == "") && (jsIncludes gState expState || jsIncludes expState expState))

/-- Source lines 104-110.  Note the self-referential
`expBairro.includes(expBairro)` in the second disjunct, kept as
written. -/
def bairroMatchesOf (gBairro expBairro : String) : Bool :=
  if expBairro == "" then true
  else if !(gBairro == "") then jsIncludes gBairro expBairro || jsIncludes expBairro expBairro
  else false

def addressMatchesExpected (nominatimAddress : Option NominatimAddressDetails)
    (expected : ExpectedAddressDetails) : Bool :=
  match nominatimAddress with
  | none => false
  | some a =>
    let gotCity := jsOr a.city (jsOr a.town (jsOr a.village ""))
    let gotCounty := a.county
    let gotSuburb := jsOr a.suburb a.neighbourhood
    let gotState := a.state
    let expCity := normalizeText expected.cidade
    let expBairro := normalizeText expected.bairro
    let expState := normalizeText expected.estado
    let gCity := normalizeText (jsOr gotCity gotCounty)
    let gBairro := normalizeText gotSuburb
    let gState := normalizeText gotState
    cityMatchesOf gCity expCity && stateMatchesOf gState expState &&
      bairroMatchesOf gBairro expBairro

/-! ## The batch-geocode per-row resolver (serve loop, lines 164-245)

The three Nominatim lookups are abstracted into a `GeoEnv` of
outcomes (result found / empty result / request threw); everything
else is the source's control flow. -/

structure InputAddressRow where
  rawAddress : String
  bairro : String
  cidade : String
  estado : String
deriving DecidableEq

structure NominatimResult where
  lat : String
  lon : String
  display_name : String
  address : Option NominatimAddressDetails
deriving DecidableEq

inductive GeoStatus where
  | valid
  | corrected
  | pending
  | mismatch
deriving DecidableEq

structure ProcessedAddress where
  originalAddress : String
  correctedAddress : String
  latitude : Option String
  longitude : Option String
  status : GeoStatus
  note : String
deriving DecidableEq

inductive GeoOutcome where
  | ok (r : NominatimResult)
  | notFound
  | err
deriving DecidableEq

structure GeoEnv where
  structured : GeoOutcome
  freetext : GeoOutcome
  retry : GeoOutcome
deriving DecidableEq

/-- Source: `note = (note ? note + ";" : "") + added`. -/
def noteAppend (note added : String) : String :=
  if note = "" then added else note ++ ";" ++ added

/-- The `if (found)` block of the serve loop (source lines 195-233):
given the retry-lookup outcome and the `(found, note)` state after the
first two lookups, produce the final `(found, status, note)`. -/
def validateFound (row : InputAddressRow) (retryOutcome : GeoOutcome) :
    Option NominatimResult × String → Option NominatimResult × GeoStatus × String
  | (some f, n) =>
    let expected : ExpectedAddressDetails := ⟨row.bairro, row.cidade, row.estado⟩
    if addressMatchesExpected (some (f.address.getD emptyDetails)) expected then
      (some f, GeoStatus.valid, "matches-planilha")
    else
      match retryOutcome with
      | GeoOutcome.ok retr =>
        if addressMatchesExpected (some (retr.address.getD emptyDetails)) expected then
          (some retr, GeoStatus.corrected, "retry-corrected-success")
        else
          (some f, GeoStatus.mismatch, "resultado-nao-coincide-com-cidade-bairro")
      | GeoOutcome.notFound =>
        (some f, GeoStatus.mismatch, "resultado-nao-coincide-com-cidade-bairro")
      | GeoOutcome.err =>
        (some f, GeoStatus.mismatch, noteAppend n "erro-na-requisicao-retry")
  | (none, n) => (none, GeoStatus.pending, jsOr n "nao-encontrado")

/-- The lookup/validation state machine of the serve loop: the value
of `(found, status, note)` after source lines 171-233. -/
def resolveCore (row : InputAddressRow) (env : GeoEnv) :
    Option NominatimResult × GeoStatus × String :=
  let s1 : Option NominatimResult × String :=
    match env.structured with
    | GeoOutcome.ok r => (some r, "")
    | GeoOutcome.notFound => (none, "")
    | GeoOutcome.err => (none, "erro-na-requisicao-structured")
  let s2 : Option NominatimResult × String :=
    match s1 with
    | (some r, n) => (some r, n)
    | (none, n) =>
      match env.freetext with
      | GeoOutcome.ok r => (some r, n)
      | GeoOutcome.notFound => (none, n)
      | GeoOutcome.err => (none, noteAppend n "erro-na-requisicao-freetext")
  validateFound row env.retry s2

/-- The result record pushed for one row (source lines 235-245). -/
def resolveRow (row : InputAddressRow) (env : GeoEnv) : ProcessedAddress :=
  match resolveCore row env with
  | (found, status, note) =>
    { originalAddress := row.rawAddress
      correctedAddress :=
        if status = GeoStatus.valid ∨ status = GeoStatus.corrected then
          jsOr (match found with | some f => f.display_name | none => "") row.rawAddress
        else row.rawAddress
      latitude := found.map NominatimResult.lat
      longitude := found.map NominatimResult.lon
      status := status
      note := note }

/-! ## correctAddressesBatchWithAI (correct-addresses function, lines 193-255)

The retry loop over the AI completion call.  Each attempt's network
outcome is supplied as an `AIResponse`; the response-parsing and the
count-mismatch validation are the source's, character for character.
The leading `^\d+\.\s*` strip is exact without backtracking because
the digit class and the literal dot are disjoint. -/

inductive AIResponse where
  | rateLimited
  | httpError
  | content (text : Option String)
  | netError
deriving DecidableEq

/-- JS `line.replace(/^\d+\.\s*/, '')`. -/
def stripNumbering (cs : List Char) : List Char :=
  let digs := cs.takeWhile isDigitChar
  let afterDigs := cs.dropWhile isDigitChar
  if digs.isEmpty then cs
  else
    match afterDigs with
    | '.' :: rest2 => rest2.dropWhile isJsSpace
    | _ => cs

/-- JS `text.split('\n')`: split at every newline, keeping empty
pieces (`""` splits to `[""]`). -/
def splitLines (cs : List Char) : List (List Char) :=
  match cs with
  | [] => [[]]
  | c :: rest =>
    let r := splitLines rest
    if c == '\n' then [] :: r
    else
      match r with
      | [] => [[c]]
      | l :: ls => (c :: l) :: ls

/-- Parsing of the numbered-list response (source lines 238-241):
split on newlines, drop blank lines, strip the leading numbering and
trim each line. -/
def parseNumberedList (text : String) : List String :=
  ((splitLines text.data).filter (fun line => !(trimWs line).isEmpty)).map
    (fun line => String.mk (trimWs (stripNumbering line)))

/-- The `for (attempt...)` loop: `fuel` is the number of attempts
still available; each attempt consumes the next response of the
environment.  An exhausted loop, an HTTP error, missing content and
a count mismatch all return the original `addresses`. -/
def aiLoop (addresses : List String) : Nat → List AIResponse → List String
  | 0, _ => addresses
  | _ + 1, [] => addresses
  | fuel + 1, r :: rs =>
    match r with
    | AIResponse.rateLimited => aiLoop addresses fuel rs
    | AIResponse.httpError => addresses
    | AIResponse.content raw =>
      match raw with
      | none => addresses
      | some rawText =>
        let correctedText := jsTrim rawText
        if correctedText = "" then addresses
        else
          let correctedAddresses := parseNumberedList correctedText
          if correctedAddresses.length = addresses.length then correctedAddresses
          else addresses
    | AIResponse.netError => if fuel = 0 then addresses else aiLoop addresses fuel rs

/-- Source `correctAddressesBatchWithAI(addresses, key, retries = 3)`. -/
def correctAddressesBatchWithAI (addresses : List String) (responses : List AIResponse) : List String :=
  aiLoop addresses 3 responses

/-! ## The correct-addresses handler's mapping-back step (lines 326-337)

Per batch, the handler extracts each row's address, filters out the
blank ones, sends the filtered list to the AI corrector, and then
assigns `correctedAddresses[idx] || originalAddress` where `idx` is
the row's position in the *unfiltered* batch.  A batch is modelled by
its list of extracted `originalAddress` values ("" when the row has a
blank or missing address cell). -/

def extractAddresses (batch : List String) : List String :=
  batch.filter (fun a => !(a == ""))

/-- Source `correctedAddresses[idx] || originalAddress` for row `idx`
(an out-of-range index is `undefined`, which is falsy). -/
def assignedAddress (batch corrections : List String) (idx : Nat) : String :=
  let originalAddress := batch.getD idx ""
  match corrections.get? idx with
  | some c => jsOr c originalAddress
  | none => originalAddress

/-- The composed per-row address assignment of the handler: run the
AI corrector on the blank-filtered address list, then map the result
back positionally. -/
def serveAssign (batch : List String) (responses : List AIResponse) (idx : Nat) : String :=
  assignedAddress batch (correctAddressesBatchWithAI (extractAddresses batch) responses) idx

/-! ## calculateDistance and the coordinate-validation step
(correct-addresses function, lines 141-154 and 347-369)

Machine floats are idealized as real numbers; `Math.atan2` is the
standard two-argument arctangent. -/

noncomputable def atan2 (y x : ℝ) : ℝ :=
  if 0 < x then Real.arctan (y / x)
  else if x < 0 ∧ 0 ≤ y then Real.arctan (y / x) + Real.pi
  else if x < 0 ∧ y < 0 then Real.arctan (y / x) - Real.pi
  else if x = 0 ∧ 0 < y then Real.pi / 2
  else if x = 0 ∧ y < 0 then -(Real.pi / 2)
  else 0

/-- The Haversine distance of the source (`R = 6371e3` meters). -/
noncomputable def calculateDistance (lat1 lon1 lat2 lon2 : ℝ) : ℝ :=
  let R : ℝ := 6371000
  let phi1 := lat1 * Real.pi / 180
  let phi2 := lat2 * Real.pi / 180
  let dphi := (lat2 - lat1) * Real.pi / 180
  let dlam := (lon2 - lon1) * Real.pi / 180
  let a := Real.sin (dphi / 2) * Real.sin (dphi / 2) +
    Real.cos phi1 * Real.cos phi2 * Real.sin (dlam / 2) * Real.sin (dlam / 2)
  let c := 2 * atan2 (Real.sqrt a) (Real.sqrt (1 - a))
  R * c

/-- The coordinate-validation step for one row (source lines 347-369):
`origLat`/`origLon` are the row's parsed coordinates (`none` when
`parseFloat` gave `NaN`, in which case geocoding is not attempted),
`geo` the geocoding outcome (`none`: failure or no result).  Returns
the coordinate values stored on the updated row. -/
noncomputable def coordValidationStep (origLat origLon : Option ℝ) (geo : Option (ℝ × ℝ)) :
    Option ℝ × Option ℝ :=
  match origLat, origLon with
  | some la, some lo =>
    match geo with
    | some (glat, glon) =>
      if calculateDistance la lo glat glon > 200 then (some glat, some glon)
      else (some la, some lo)
    | none => (some la, some lo)
  | _, _ => (origLat, origLon)

/-! ## Helper lemmas -/

/-- Every branch of the AI retry loop returns either the original
`addresses` or a parsed list whose length was checked equal. -/
theorem aiLoop_length (addresses : List String) :
    ∀ (fuel : Nat) (rs : List AIResponse),
      (aiLoop addresses fuel rs).length = addresses.length := by
  intro fuel
  induction fuel with
  | zero => intro rs; rfl
  | succ n ih =>
    intro rs
    cases rs with
    | nil => rfl
    | cons r rs' =>
      cases r with
      | rateLimited => exact ih rs'
      | httpError => rfl
      | content raw =>
        cases raw with
        | none => rfl
        | some rawText =>
          simp only [aiLoop]
          split
          · rfl
          · split
            · next h => exact h
            · rfl
      | netError =>
        simp only [aiLoop]
        split
        · rfl
        · exact ih rs'

theorem calculateDistance_self_aux (lat lon : ℝ) : calculateDistance lat lon lat lon = 0 := by
  have h0 : (lat - lat) * Real.pi / 180 / 2 = 0 := by ring
  have h1 : (lon - lon) * Real.pi / 180 / 2 = 0 := by ring
  have h2 : atan2 0 1 = 0 := by
    unfold atan2
    rw [if_pos (by norm_num : (0:ℝ) < 1)]
    norm_num [Real.arctan_zero]
  simp [calculateDistance, h0, h1, Real.sin_zero, Real.sqrt_zero, Real.sqrt_one, h2]

theorem calculateDistance_symm_aux (lat1 lon1 lat2 lon2 : ℝ) :
    calculateDistance lat2 lon2 lat1 lon1 = calculateDistance lat1 lon1 lat2 lon2 := by
  have e1 : (lat1 - lat2) * Real.pi / 180 / 2 = -((lat2 - lat1) * Real.pi / 180 / 2) := by ring
  have e2 : (lon1 - lon2) * Real.pi / 180 / 2 = -((lon2 - lon1) * Real.pi / 180 / 2) := by ring
  simp only [calculateDistance, e1, e2, Real.sin_neg]
  ring_nf

theorem atan2_one_zero_aux : atan2 1 0 = Real.pi / 2 := by
  unfold atan2
  rw [if_neg (by norm_num), if_neg (by norm_num), if_neg (by norm_num),
    if_pos (by norm_num : (0:ℝ) = 0 ∧ (0:ℝ) < 1)]

theorem calculateDistance_antipodal_aux : calculateDistance 0 0 0 180 = 6371000 * Real.pi := by
  have h0 : ((0:ℝ) - 0) * Real.pi / 180 / 2 = 0 := by ring
  have h1 : ((180:ℝ) - 0) * Real.pi / 180 / 2 = Real.pi / 2 := by ring
  have h2 : (0:ℝ) * Real.pi / 180 = 0 := by ring
  simp only [calculateDistance, h0, h1, h2, Real.sin_zero, Real.cos_zero,
    Real.sin_pi_div_two]
  norm_num [Real.sqrt_one, Real.sqrt_zero, atan2_one_zero_aux]
  ring

theorem calculateDistance_antipodal_gt : calculateDistance 0 0 0 180 > 200 := by
  rw [calculateDistance_antipodal_aux]
  nlinarith [Real.pi_gt_three]

/-! ## The claims -/

/-- C2: for every batch of addresses given to the AI corrector, if the
parsed response contains a number of non-blank lines different from
the number of input addresses, `correctAddressesBatchWithAI` returns
the original input addresses unchanged (first conjunct, for a response
arriving on the first attempt; `parseNumberedList` has one entry per
non-blank line); and its output always has the same length as its
input (second conjunct, over every sequence of attempt outcomes). -/
theorem correctAddressesBatchWithAI_count_mismatch
    (addresses : List String) (text : String) (rs : List AIResponse)
    (hmis : (parseNumberedList (jsTrim text)).length ≠ addresses.length) :
    correctAddressesBatchWithAI addresses (AIResponse.content (some text) :: rs) = addresses ∧
    ∀ responses : List AIResponse,
      (correctAddressesBatchWithAI addresses responses).length = addresses.length := by
  constructor
  · show aiLoop addresses 3 (AIResponse.content (some text) :: rs) = addresses
    simp [aiLoop, hmis]
  · intro responses
    exact aiLoop_length addresses 3 responses

/-- Witness for C2 at a concrete input: a 2-address batch whose
response has a single corrected line falls back to the originals. -/
theorem correctAddressesBatchWithAI_count_mismatch_witness :
    (parseNumberedList (jsTrim "1. corrected")).length ≠ (["a", "b"] : List String).length ∧
    correctAddressesBatchWithAI ["a", "b"] [AIResponse.content (some "1. corrected")] = ["a", "b"] ∧
    (correctAddressesBatchWithAI ["a", "b"] [AIResponse.content (some "1. corrected")]).length = 2 := by
  have h := correctAddressesBatchWithAI_count_mismatch ["a", "b"] "1. corrected" [] (by decide)
  exact ⟨by decide, h.1, h.2 _⟩

/-- C8 (amended): in `addressMatchesExpected`, the neighborhood check
returns true exactly when no expected neighborhood is given, or when
the (normalized) returned neighborhood is non-empty — because the
source compares `expBairro.includes(expBairro)`, containment between
the returned and expected neighborhoods is not actually required. -/
theorem bairroMatchesOf_spec (gBairro expBairro : String) :
    bairroMatchesOf gBairro expBairro = true ↔ (expBairro = "" ∨ gBairro ≠ "") := by
  rcases eq_or_ne expBairro "" with he | he
  · simp [bairroMatchesOf, he]
  · rcases eq_or_ne gBairro "" with hg | hg
    · simp [bairroMatchesOf, he, hg]
    · have hself : jsIncludes expBairro expBairro = true := by
        simp [jsIncludes]
      simp [bairroMatchesOf, he, hg, hself]

/-- The claim's reading of the neighborhood check: containment of the
expected neighborhood in the returned one or vice versa (stated from
the specification, for comparison with `bairroMatchesOf`). -/
def bairroCheckClaim (gBairro expBairro : String) : Bool :=
  (expBairro == "") || jsIncludes gBairro expBairro || jsIncludes expBairro gBairro

/-- Counterexample for C8 as stated: with expected neighborhood "abc"
and returned suburb "xyz" (no containment either way) the implemented
check — and the whole validation — still accepts. -/
theorem bairroMatchesOf_claim_counterexample :
    addressMatchesExpected (some ⟨"sao paulo", "", "", "", "xyz", "", ""⟩)
      ⟨"abc", "sao paulo", ""⟩ = true ∧
    bairroMatchesOf (normalizeText "xyz") (normalizeText "abc") = true ∧
    bairroCheckClaim (normalizeText "xyz") (normalizeText "abc") = false := by
  refine ⟨by decide, by decide, by decide⟩

/-- C9: the Haversine distance of the source is zero on identical
coordinate pairs and is symmetric. -/
theorem calculateDistance_self_and_symm (lat1 lon1 lat2 lon2 : ℝ) :
    calculateDistance lat1 lon1 lat1 lon1 = 0 ∧
    calculateDistance lat1 lon1 lat2 lon2 = calculateDistance lat2 lon2 lat1 lon1 :=
  ⟨calculateDistance_self_aux lat1 lon1, (calculateDistance_symm_aux lat1 lon1 lat2 lon2).symm⟩

/-- C7: the coordinate-validation step overwrites the stored
coordinates with the geocoded ones exactly when the Haversine distance
exceeds 200 meters; at or below 200 meters, and when geocoding fails
or returns no result, the stored coordinates are unchanged. -/
theorem coordValidationStep_threshold (la lo glat glon : ℝ) :
    (calculateDistance la lo glat glon > 200 →
      coordValidationStep (some la) (some lo) (some (glat, glon)) = (some glat, some glon)) ∧
    (calculateDistance la lo glat glon ≤ 200 →
      coordValidationStep (some la) (some lo) (some (glat, glon)) = (some la, some lo)) ∧
    coordValidationStep (some la) (some lo) none = (some la, some lo) := by
  refine ⟨fun h => ?_, fun h => ?_, rfl⟩
  · simp only [coordValidationStep, if_pos h]
  · simp only [coordValidationStep, if_neg (not_lt.mpr h)]

/-- Witness for C7 at concrete inputs: antipodal geocoded coordinates
(distance `6371000 * π > 200` m) are written back; identical
coordinates (distance 0 ≤ 200 m) are left untouched. -/
theorem coordValidationStep_threshold_witness :
    calculateDistance 0 0 0 180 > 200 ∧
    coordValidationStep (some 0) (some 0) (some (0, 180)) = (some 0, some 180) ∧
    calculateDistance 1 1 1 1 ≤ 200 ∧
    coordValidationStep (some 1) (some 1) (some (1, 1)) = (some 1, some 1) := by
  have hle : calculateDistance 1 1 1 1 ≤ 200 := by
    rw [calculateDistance_self_aux]; norm_num
  exact ⟨calculateDistance_antipodal_gt,
    (coordValidationStep_threshold 0 0 0 180).1 calculateDistance_antipodal_gt,
    hle, (coordValidationStep_threshold 1 1 1 1).2.1 hle⟩

/-- Shape of the validation outcome: either nothing was found and the
row is `pending`, or a result is attached whose validation verdict
matches the status (`valid`/`corrected` after a successful check,
`mismatch` after a failed one). -/
theorem validateFound_spec (row : InputAddressRow) (rt : GeoOutcome)
    (s : Option NominatimResult × String) :
    ((validateFound row rt s).1 = none ∧ (validateFound row rt s).2.1 = GeoStatus.pending) ∨
    (∃ f : NominatimResult, (validateFound row rt s).1 = some f ∧
      ((((validateFound row rt s).2.1 = GeoStatus.valid ∨
          (validateFound row rt s).2.1 = GeoStatus.corrected) ∧
        addressMatchesExpected (some (f.address.getD emptyDetails))
          ⟨row.bairro, row.cidade, row.estado⟩ = true) ∨
       ((validateFound row rt s).2.1 = GeoStatus.mismatch ∧
        addressMatchesExpected (some (f.address.getD emptyDetails))
          ⟨row.bairro, row.cidade, row.estado⟩ = false))) := by
  rcases s with ⟨fo, n⟩
  rcases fo with _ | f
  · exact Or.inl ⟨rfl, rfl⟩
  · by_cases h1 : addressMatchesExpected (some (f.address.getD emptyDetails))
      ⟨row.bairro, row.cidade, row.estado⟩ = true
    · refine Or.inr ⟨f, ?_, Or.inl ⟨Or.inl ?_, h1⟩⟩ <;> simp [validateFound, h1]
    · have h1f : addressMatchesExpected (some (f.address.getD emptyDetails))
        ⟨row.bairro, row.cidade, row.estado⟩ = false := by
        revert h1; cases addressMatchesExpected (some (f.address.getD emptyDetails))
          ⟨row.bairro, row.cidade, row.estado⟩ <;> simp
      rcases rt with retr | _ | _
      · by_cases h2 : addressMatchesExpected (some (retr.address.getD emptyDetails))
          ⟨row.bairro, row.cidade, row.estado⟩ = true
        · refine Or.inr ⟨retr, ?_, Or.inl ⟨Or.inr ?_, h2⟩⟩ <;>
            simp [validateFound, h1f, h2]
        · have h2f : addressMatchesExpected (some (retr.address.getD emptyDetails))
            ⟨row.bairro, row.cidade, row.estado⟩ = false := by
            revert h2; cases addressMatchesExpected (some (retr.address.getD emptyDetails))
              ⟨row.bairro, row.cidade, row.estado⟩ <;> simp
          refine Or.inr ⟨f, ?_, Or.inr ⟨?_, h1f⟩⟩ <;> simp [validateFound, h1f, h2f]
      · refine Or.inr ⟨f, ?_, Or.inr ⟨?_, h1f⟩⟩ <;> simp [validateFound, h1f]
      · refine Or.inr ⟨f, ?_, Or.inr ⟨?_, h1f⟩⟩ <;> simp [validateFound, h1f]

/-- Whatever the branch, a found `(some f, n)` state keeps some result
attached. -/
theorem validateFound_some (row : InputAddressRow) (rt : GeoOutcome)
    (f : NominatimResult) (n : String) :
    ∃ g, (validateFound row rt (some f, n)).1 = some g := by
  simp only [validateFound]
  split
  · exact ⟨f, rfl⟩
  · rcases rt with retr | _ | _
    · simp only []
      split
      · exact ⟨retr, rfl⟩
      · exact ⟨f, rfl⟩
    · exact ⟨f, rfl⟩
    · exact ⟨f, rfl⟩

theorem resolveCore_spec (row : InputAddressRow) (env : GeoEnv) :
    ((resolveCore row env).1 = none ∧ (resolveCore row env).2.1 = GeoStatus.pending) ∨
    (∃ f : NominatimResult, (resolveCore row env).1 = some f ∧
      ((((resolveCore row env).2.1 = GeoStatus.valid ∨
          (resolveCore row env).2.1 = GeoStatus.corrected) ∧
        addressMatchesExpected (some (f.address.getD emptyDetails))
          ⟨row.bairro, row.cidade, row.estado⟩ = true) ∨
       ((resolveCore row env).2.1 = GeoStatus.mismatch ∧
        addressMatchesExpected (some (f.address.getD emptyDetails))
          ⟨row.bairro, row.cidade, row.estado⟩ = false))) := by
  simp only [resolveCore]
  exact validateFound_spec row env.retry _

theorem resolveRow_status_eq (row : InputAddressRow) (env : GeoEnv) :
    (resolveRow row env).status = (resolveCore row env).2.1 := by
  unfold resolveRow
  rcases h : resolveCore row env with ⟨f, s, n⟩
  rfl

theorem resolveRow_latitude_eq (row : InputAddressRow) (env : GeoEnv) :
    (resolveRow row env).latitude = ((resolveCore row env).1).map NominatimResult.lat := by
  unfold resolveRow
  rcases h : resolveCore row env with ⟨f, s, n⟩
  rfl

theorem resolveRow_longitude_eq (row : InputAddressRow) (env : GeoEnv) :
    (resolveRow row env).longitude = ((resolveCore row env).1).map NominatimResult.lon := by
  unfold resolveRow
  rcases h : resolveCore row env with ⟨f, s, n⟩
  rfl

/-- With no locality hints, `cityMatches` is the falsy `expCity`,
so the whole validation rejects. -/
theorem addressMatchesExpected_empty (na : NominatimAddressDetails) :
    addressMatchesExpected (some na) ⟨"", "", ""⟩ = false := by
  simp [addressMatchesExpected, cityMatchesOf, normalizeText]

/-- C1 (amended): for every input row whose locality hints (bairro,
cidade, estado) are all empty, `addressMatchesExpected` rejects every
found result — the city check `expCity && gCity && (...)` is falsy
when the expected city is empty — so the row's status is never
'valid' (nor 'corrected'); whenever the structured or free-text
attempt finds a result the status is 'mismatch'. -/
theorem resolveRow_empty_hints (row : InputAddressRow) (env : GeoEnv)
    (hb : row.bairro = "") (hc : row.cidade = "") (he : row.estado = "") :
    (∀ na, addressMatchesExpected (some na) ⟨row.bairro, row.cidade, row.estado⟩ = false) ∧
    (resolveRow row env).status ≠ GeoStatus.valid ∧
    (resolveRow row env).status ≠ GeoStatus.corrected ∧
    (((∃ r, env.structured = GeoOutcome.ok r) ∨ (∃ r, env.freetext = GeoOutcome.ok r)) →
      (resolveRow row env).status = GeoStatus.mismatch) := by
  have hmatch : ∀ na,
      addressMatchesExpected (some na) ⟨row.bairro, row.cidade, row.estado⟩ = false := by
    intro na; rw [hb, hc, he]; exact addressMatchesExpected_empty na
  have hstat := resolveRow_status_eq row env
  have hspec := resolveCore_spec row env
  refine ⟨hmatch, ?_, ?_, ?_⟩
  · rcases hspec with ⟨h1, h2⟩ | ⟨f, hf, ⟨hvc, hm⟩ | ⟨hm, hmf⟩⟩
    · rw [hstat, h2]; simp
    · simp [hmatch] at hm
    · rw [hstat, hm]; simp
  · rcases hspec with ⟨h1, h2⟩ | ⟨f, hf, ⟨hvc, hm⟩ | ⟨hm, hmf⟩⟩
    · rw [hstat, h2]; simp
    · simp [hmatch] at hm
    · rw [hstat, hm]; simp
  · intro hfound
    have hsome : ∃ g, (resolveCore row env).1 = some g := by
      rcases hfound with ⟨r, hr⟩ | ⟨r, hr⟩
      · simp only [resolveCore, hr]
        exact validateFound_some row env.retry r ""
      · rcases hst : env.structured with r1 | _ | _
        · simp only [resolveCore, hst]
          exact validateFound_some row env.retry r1 ""
        · simp only [resolveCore, hst, hr]
          exact validateFound_some row env.retry r ""
        · simp only [resolveCore, hst, hr]
          exact validateFound_some row env.retry r _
    obtain ⟨g, hg⟩ := hsome
    rcases hspec with ⟨h1, h2⟩ | ⟨f, hf, ⟨hvc, hm⟩ | ⟨hm, hmf⟩⟩
    · rw [h1] at hg; cases hg
    · simp [hmatch] at hm
    · rw [hstat, hm]

/-- Counterexample for C1 as stated: a row with empty bairro, cidade
and estado for which the structured lookup finds a result, yet
`addressMatchesExpected` rejects it and the status is 'mismatch', not
'valid'. -/
theorem resolveRow_empty_hints_counterexample :
    addressMatchesExpected (some emptyDetails) ⟨"", "", ""⟩ = false ∧
    (resolveRow ⟨"rua a, 1", "", "", ""⟩
      ⟨GeoOutcome.ok ⟨"-22.9068", "-43.1729", "Rua A", none⟩,
       GeoOutcome.notFound, GeoOutcome.notFound⟩).status = GeoStatus.mismatch := by
  exact ⟨by decide, by decide⟩

/-- Witness for the amended C1 at a concrete input. -/
theorem resolveRow_empty_hints_witness :
    (resolveRow ⟨"rua b, 2", "", "", ""⟩
      ⟨GeoOutcome.ok ⟨"1", "2", "X", none⟩, GeoOutcome.notFound,
       GeoOutcome.notFound⟩).status = GeoStatus.mismatch ∧
    (resolveRow ⟨"rua b, 2", "", "", ""⟩
      ⟨GeoOutcome.ok ⟨"1", "2", "X", none⟩, GeoOutcome.notFound,
       GeoOutcome.notFound⟩).status ≠ GeoStatus.valid := by
  have h := resolveRow_empty_hints ⟨"rua b, 2", "", "", ""⟩
    ⟨GeoOutcome.ok ⟨"1", "2", "X", none⟩, GeoOutcome.notFound, GeoOutcome.notFound⟩
    rfl rfl rfl
  exact ⟨h.2.2.2 (Or.inl ⟨_, rfl⟩), h.2.1⟩

/-- C3: for every `ProcessedAddress` produced by the batch-geocode
resolver, statuses 'valid' and 'corrected' come with both coordinates
present; 'pending' comes with both absent; and 'mismatch' carries the
coordinates of a result that failed `addressMatchesExpected`
(untrusted). -/
theorem resolveRow_status_coord_invariant (row : InputAddressRow) (env : GeoEnv) :
    (((resolveRow row env).status = GeoStatus.valid ∨
        (resolveRow row env).status = GeoStatus.corrected) →
      (resolveRow row env).latitude.isSome = true ∧
      (resolveRow row env).longitude.isSome = true) ∧
    ((resolveRow row env).status = GeoStatus.pending →
      (resolveRow row env).latitude = none ∧ (resolveRow row env).longitude = none) ∧
    ((resolveRow row env).status = GeoStatus.mismatch →
      ∃ f : NominatimResult, (resolveRow row env).latitude = some f.lat ∧
        (resolveRow row env).longitude = some f.lon ∧
        addressMatchesExpected (some (f.address.getD emptyDetails))
          ⟨row.bairro, row.cidade, row.estado⟩ = false) := by
  have hstat := resolveRow_status_eq row env
  have hla := resolveRow_latitude_eq row env
  have hlo := resolveRow_longitude_eq row env
  rcases resolveCore_spec row env with ⟨h1, h2⟩ | ⟨f, hf, hcase⟩
  · refine ⟨?_, ?_, ?_⟩
    · intro hv; rw [hstat, h2] at hv; rcases hv with hv | hv <;> simp at hv
    · intro _; rw [hla, hlo, h1]; exact ⟨rfl, rfl⟩
    · intro hm; rw [hstat, h2] at hm; simp at hm
  · rcases hcase with ⟨hvc, hmT⟩ | ⟨hm, hmF⟩
    · refine ⟨?_, ?_, ?_⟩
      · intro _; rw [hla, hlo, hf]; exact ⟨rfl, rfl⟩
      · intro hp; rw [hstat] at hp
        rcases hvc with hv | hv <;> (rw [hv] at hp; simp at hp)
      · intro hm'; rw [hstat] at hm'
        rcases hvc with hv | hv <;> (rw [hv] at hm'; simp at hm')
    · refine ⟨?_, ?_, ?_⟩
      · intro hv; rw [hstat, hm] at hv; rcases hv with hv | hv <;> simp at hv
      · intro hp; rw [hstat, hm] at hp; simp at hp
      · intro _
        exact ⟨f, by rw [hla, hf]; rfl, by rw [hlo, hf]; rfl, hmF⟩

/-- Witness for C3, applying the mismatch conjunct at a concrete row
whose structured lookup succeeds but fails validation. -/
theorem resolveRow_status_coord_invariant_witness :
    ∃ f : NominatimResult,
      (resolveRow ⟨"rua c, 3", "", "", ""⟩
        ⟨GeoOutcome.ok ⟨"10", "20", "Rua C", none⟩, GeoOutcome.notFound,
         GeoOutcome.notFound⟩).latitude = some f.lat ∧
      (resolveRow ⟨"rua c, 3", "", "", ""⟩
        ⟨GeoOutcome.ok ⟨"10", "20", "Rua C", none⟩, GeoOutcome.notFound,
         GeoOutcome.notFound⟩).longitude = some f.lon ∧
      addressMatchesExpected (some (f.address.getD emptyDetails)) ⟨"", "", ""⟩ = false :=
  (resolveRow_status_coord_invariant ⟨"rua c, 3", "", "", ""⟩
    ⟨GeoOutcome.ok ⟨"10", "20", "Rua C", none⟩, GeoOutcome.notFound,
     GeoOutcome.notFound⟩).2.2 (by decide)

/-- Source expression `correctedAddresses[idx] || originalAddress` equals the JS-or of
the (default-"") indexed correction and the original. -/
theorem assignedAddress_eq_jsOr (batch c : List String) (i : Nat) :
    assignedAddress batch c i = jsOr (c.getD i "") (batch.getD i "") := by
  unfold assignedAddress
  cases h : c.get? i with
  | none =>
    have h2 : c.getD i "" = "" := by
      rw [List.getD_eq_getElem?_getD, ← List.get?_eq_getElem?, h]; rfl
    rw [h2]
    simp [jsOr]
  | some v =>
    have h2 : c.getD i "" = v := by
      rw [List.getD_eq_getElem?_getD, ← List.get?_eq_getElem?, h]; rfl
    rw [h2]

/-- Any entry of the blank-filtered list comes from the same or a
later position of the original list. -/
theorem extractAddresses_getD_ge (l : List String) :
    ∀ i, i < (extractAddresses l).length →
      ∃ j, i ≤ j ∧ j < l.length ∧ (extractAddresses l).getD i "" = l.getD j "" := by
  induction l with
  | nil => intro i hi; simp [extractAddresses] at hi
  | cons x xs ih =>
    intro i hi
    by_cases hx : x = ""
    · have hfe : extractAddresses (x :: xs) = extractAddresses xs := by
        simp [extractAddresses, hx]
      rw [hfe] at hi ⊢
      obtain ⟨j, hij, hjlen, heq⟩ := ih i hi
      exact ⟨j + 1, Nat.le_succ_of_le hij, Nat.succ_lt_succ hjlen, by simpa using heq⟩
    · have hfe : extractAddresses (x :: xs) = x :: extractAddresses xs := by
        simp [extractAddresses, hx]
      rw [hfe] at hi ⊢
      cases i with
      | zero => exact ⟨0, Nat.le_refl 0, Nat.succ_pos _, by simp⟩
      | succ i2 =>
        have hi2 : i2 < (extractAddresses xs).length := by simpa using hi
        obtain ⟨j, hij, hjlen, heq⟩ := ih i2 hi2
        exact ⟨j + 1, Nat.succ_le_succ hij, Nat.succ_lt_succ hjlen, by simpa using heq⟩

/-- With a blank entry strictly before position `i`, the entry of the
blank-filtered list at `i` comes from a strictly later position of the
original list. -/
theorem extractAddresses_getD_shift (l : List String) :
    ∀ i, (∃ j, j < i ∧ j < l.length ∧ l.getD j "" = "") →
      i < (extractAddresses l).length →
      ∃ j, i < j ∧ j < l.length ∧ (extractAddresses l).getD i "" = l.getD j "" := by
  induction l with
  | nil => intro i _ hi; simp [extractAddresses] at hi
  | cons x xs ih =>
    rintro i ⟨j0, hj0i, hj0len, hblank⟩ hi
    by_cases hx : x = ""
    · have hfe : extractAddresses (x :: xs) = extractAddresses xs := by
        simp [extractAddresses, hx]
      rw [hfe] at hi ⊢
      obtain ⟨j, hij, hjlen, heq⟩ := extractAddresses_getD_ge xs i hi
      exact ⟨j + 1, Nat.lt_succ_of_le hij, Nat.succ_lt_succ hjlen, by simpa using heq⟩
    · have hfe : extractAddresses (x :: xs) = x :: extractAddresses xs := by
        simp [extractAddresses, hx]
      rw [hfe] at hi ⊢
      cases j0 with
      | zero => exact absurd (by simpa using hblank) hx
      | succ j02 =>
        cases i with
        | zero => omega
        | succ i2 =>
          have hi2 : i2 < (extractAddresses xs).length := by simpa using hi
          have hex : ∃ j, j < i2 ∧ j < xs.length ∧ xs.getD j "" = "" :=
            ⟨j02, by omega, by simpa using hj0len, by simpa using hblank⟩
          obtain ⟨j, hij, hjlen, heq⟩ := ih i2 hex hi2
          exact ⟨j + 1, Nat.succ_lt_succ hij, Nat.succ_lt_succ hjlen, by simpa using heq⟩

/-- C10 (amended): corrections are mapped back to rows by index into
the blank-filtered address list.  When every row of the batch has a
non-blank address, the filtered list is the batch itself, so row `i`
receives the correction computed for its own address (falling back to
the original when that correction is blank).  When some row before
position `i` is blank: if `i` is still within the filtered list, row
`i` receives the correction computed for the address of a strictly
later row; if `i` is past the end of the filtered list, row `i` simply
keeps its own original address and receives no correction at all. -/
theorem serveAssign_alignment (batch : List String) (responses : List AIResponse) (i : Nat) :
    ((∀ a ∈ batch, a ≠ "") →
      extractAddresses batch = batch ∧
      serveAssign batch responses i =
        jsOr ((correctAddressesBatchWithAI batch responses).getD i "") (batch.getD i "")) ∧
    ((∃ j, j < i ∧ j < batch.length ∧ batch.getD j "" = "") →
      (i < (extractAddresses batch).length →
        ∃ j, i < j ∧ j < batch.length ∧
          (extractAddresses batch).getD i "" = batch.getD j "") ∧
      ((extractAddresses batch).length ≤ i →
        serveAssign batch responses i = batch.getD i "")) := by
  constructor
  · intro hall
    have hx : extractAddresses batch = batch := by
      apply List.filter_eq_self.mpr
      intro a ha
      simpa using hall a ha
    refine ⟨hx, ?_⟩
    unfold serveAssign
    rw [hx]
    exact assignedAddress_eq_jsOr batch _ i
  · intro hex
    constructor
    · exact fun hi => extractAddresses_getD_shift batch i hex hi
    · intro hle
      unfold serveAssign assignedAddress
      have hclen : (correctAddressesBatchWithAI (extractAddresses batch) responses).length =
          (extractAddresses batch).length := aiLoop_length _ 3 _
      have hnone : (correctAddressesBatchWithAI (extractAddresses batch) responses).get? i = none :=
        List.get?_eq_none.mpr (by omega)
      rw [hnone]

/-- Counterexample for C10 as stated: in the batch `["a", "", "c"]`
(blank at position 1), the corrector returns `["a+", "c+"]` for the
filtered list `["a", "c"]`; row 1 receives `"c+"` — the correction of
row 2's address — but row 2, which also has the blank before it,
receives no correction at all: it keeps its own `"c"`, which is not
among the computed corrections. -/
theorem serveAssign_claim_counterexample :
    serveAssign ["a", "", "c"] [AIResponse.content (some "1. a+\n2. c+")] 2 = "c" ∧
    correctAddressesBatchWithAI (extractAddresses ["a", "", "c"])
      [AIResponse.content (some "1. a+\n2. c+")] = ["a+", "c+"] ∧
    "c" ∉ (["a+", "c+"] : List String) ∧
    serveAssign ["a", "", "c"] [AIResponse.content (some "1. a+\n2. c+")] 1 = "c+" := by
  exact ⟨by decide, by decide, by decide, by decide⟩

/-- Witness for the amended C10 at concrete inputs. -/
theorem serveAssign_alignment_witness :
    (∃ j, 1 < j ∧ j < 3 ∧
      (extractAddresses ["", "b", "c"]).getD 1 "" = (["", "b", "c"] : List String).getD j "") ∧
    serveAssign ["x", "y"] [] 0 =
      jsOr ((correctAddressesBatchWithAI ["x", "y"] []).getD 0 "")
        ((["x", "y"] : List String).getD 0 "") := by
  constructor
  · have h := ((serveAssign_alignment ["", "b", "c"] [] 1).2
      ⟨0, by decide, by decide, by decide⟩).1 (by decide)
    simpa using h
  · exact ((serveAssign_alignment ["x", "y"] [] 0).1 (by decide)).2

/-- Inserting a row into the bucket map adds exactly that row to the
multiset of bucketed rows. -/
theorem insertRow_flatten_perm (acc : List (String × List SheetRow)) (k : String) (r : SheetRow) :
    List.Perm (((insertRow acc k r).map Prod.snd).flatten)
      ((acc.map Prod.snd).flatten ++ [r]) := by
  induction acc with
  | nil => simp [insertRow]
  | cons p rest ih =>
    obtain ⟨k2, b⟩ := p
    by_cases hk : k2 = k
    · simp only [insertRow, if_pos hk, List.map_cons, List.flatten_cons]
      rw [List.append_assoc, List.append_assoc]
      exact List.Perm.append_left b List.perm_append_comm
    · simp only [insertRow, if_neg hk, List.map_cons, List.flatten_cons]
      rw [List.append_assoc]
      exact List.Perm.append_left b ih

theorem insertRow_length_le (acc : List (String × List SheetRow)) (k : String) (r : SheetRow) :
    (insertRow acc k r).length ≤ acc.length + 1 := by
  induction acc with
  | nil => simp [insertRow]
  | cons p rest ih =>
    obtain ⟨k2, b⟩ := p
    by_cases hk : k2 = k
    · simp [insertRow, hk]
    · simp only [insertRow, if_neg hk, List.length_cons]
      omega

/-- The key list after an insertion: unchanged when the key already
has a bucket, extended by the key otherwise. -/
theorem insertRow_keys (acc : List (String × List SheetRow)) (k : String) (r : SheetRow) :
    (insertRow acc k r).map Prod.fst =
      if k ∈ acc.map Prod.fst then acc.map Prod.fst else acc.map Prod.fst ++ [k] := by
  induction acc with
  | nil => simp [insertRow]
  | cons p rest ih =>
    obtain ⟨k2, b⟩ := p
    by_cases hk : k2 = k
    · simp [insertRow, hk]
    · have hk2 : ¬ k = k2 := fun h => hk h.symm
      simp only [insertRow, if_neg hk, List.map_cons, List.mem_cons, hk2, false_or, ih]
      split_ifs <;> simp

theorem insertRow_keys_nodup (acc : List (String × List SheetRow)) (k : String) (r : SheetRow)
    (h : (acc.map Prod.fst).Nodup) : ((insertRow acc k r).map Prod.fst).Nodup := by
  rw [insertRow_keys]
  split_ifs with hmem
  · exact h
  · simp [List.nodup_append, h, hmem]

theorem groupRows_aux_perm (rows : List SheetRow) :
    ∀ acc : List (String × List SheetRow),
      List.Perm (((rows.foldl (fun acc row => insertRow acc (groupKey row) row) acc).map
          Prod.snd).flatten)
        ((acc.map Prod.snd).flatten ++ rows) := by
  induction rows with
  | nil => intro acc; simp
  | cons r rs ih =>
    intro acc
    simp only [List.foldl_cons]
    refine (ih (insertRow acc (groupKey r) r)).trans ?_
    refine ((insertRow_flatten_perm acc (groupKey r) r).append_right rs).trans ?_
    rw [List.append_assoc]
    exact List.Perm.refl _

theorem groupRows_aux_length (rows : List SheetRow) :
    ∀ acc : List (String × List SheetRow),
      (rows.foldl (fun acc row => insertRow acc (groupKey row) row) acc).length ≤
        acc.length + rows.length := by
  induction rows with
  | nil => intro acc; simp
  | cons r rs ih =>
    intro acc
    simp only [List.foldl_cons, List.length_cons]
    have h1 := ih (insertRow acc (groupKey r) r)
    have h2 := insertRow_length_le acc (groupKey r) r
    omega

theorem groupRows_aux_nodup (rows : List SheetRow) :
    ∀ acc : List (String × List SheetRow), (acc.map Prod.fst).Nodup →
      ((rows.foldl (fun acc row => insertRow acc (groupKey row) row) acc).map Prod.fst).Nodup := by
  induction rows with
  | nil => intro acc h; simpa using h
  | cons r rs ih =>
    intro acc h
    simp only [List.foldl_cons]
    exact ih _ (insertRow_keys_nodup acc (groupKey r) r h)

/-- C4: the grouping step produces at most `|R|` merged rows, the
buckets partition the input rows (their concatenation is a permutation
of the input, and the bucket keys are pairwise distinct, so every row
lands in exactly one bucket), and the merged output also has at most
`|R|` rows. -/
theorem groupRows_partition (rows : List SheetRow) :
    (groupRows rows).length ≤ rows.length ∧
    List.Perm (((groupRows rows).map Prod.snd).flatten) rows ∧
    ((groupRows rows).map Prod.fst).Nodup ∧
    ∀ hasSeqCol, (processFileGroups hasSeqCol rows).length ≤ rows.length := by
  refine ⟨?_, ?_, ?_, ?_⟩
  · have h := groupRows_aux_length rows []
    simpa [groupRows] using h
  · have h := groupRows_aux_perm rows []
    simpa [groupRows] using h
  · exact groupRows_aux_nodup rows [] (by simp)
  · intro hasSeqCol
    have h := groupRows_aux_length rows []
    simpa [processFileGroups, groupRows] using h

/-- The claim's description of the merged sequence value: the
'; '-joined list of the non-blank, trimmed sequence values (stated
from the specification, for comparison with `mergeGroup`). -/
def seqMergeTrimmedClaim (bucket : List SheetRow) : String :=
  String.intercalate "; "
    (((bucket.map SheetRow.seq).map jsTrim).filter (fun s => !(s == "")))

/-- C6 (amended): for every bucket with a known sequence column, the
merged row's sequence value is the '; '-joined list of the non-blank
original (untrimmed) sequence values of the bucket's rows in bucket
order — a value is dropped when it is blank after trimming, but the
kept values are joined as they are, not trimmed; in particular the
spec's example group with values "S1", "", "S3" yields "S1; S3". -/
theorem mergeGroup_seq_join (bucket : List SheetRow) :
    (mergeGroup true bucket).seq =
      String.intercalate "; "
        ((bucket.map SheetRow.seq).filter (fun s => !(jsTrim s == ""))) ∧
    (mergeGroup true [⟨"Rua X, 1", "S1", 0⟩, ⟨"Rua X, 1", "", 1⟩,
      ⟨"Rua X, 1", "S3", 2⟩]).seq = "S1; S3" := by
  constructor
  · simp only [mergeGroup, if_true]
    congr 1
    apply List.filter_congr
    intro s _
    by_cases hs : s = ""
    · subst hs; decide
    · have hs2 : (s == "") = false := by simpa using hs
      simp [hs2]
  · decide

/-- Counterexample for C6 as stated: a group whose first sequence
value carries surrounding whitespace is joined untrimmed, so the
merged value differs from the claim's trimmed join. -/
theorem mergeGroup_seq_claim_counterexample :
    (mergeGroup true [⟨"Rua X, 1", " S1", 0⟩, ⟨"Rua X, 1", "S3", 1⟩]).seq = " S1; S3" ∧
    (processFileGroups true [⟨"Rua X, 1", " S1", 0⟩, ⟨"Rua X, 1", "S3", 1⟩]).map
      SheetRow.seq = [" S1; S3"] ∧
    seqMergeTrimmedClaim [⟨"Rua X, 1", " S1", 0⟩, ⟨"Rua X, 1", "S3", 1⟩] = "S1; S3" ∧
    (" S1; S3" : String) ≠ "S1; S3" := by
  exact ⟨by decide, by decide, by decide, by decide⟩

/-! ## Lemmas for the idempotence of normalizeAddress (C5) -/

theorem String_data_mk (l : List Char) : (String.mk l).data = l := rfl

/-- Numeric characterization of the separator class `[,\s]`. -/
theorem isSepChar_toNat {c : Char} (h : isSepChar c = true) :
    c.toNat = 44 ∨ c.toNat = 32 ∨ c.toNat = 9 ∨ c.toNat = 10 ∨ c.toNat = 11 ∨ c.toNat = 12 ∨
    c.toNat = 13 ∨ c.toNat = 0xa0 ∨ c.toNat = 0x1680 ∨ (0x2000 ≤ c.toNat ∧ c.toNat ≤ 0x200a) ∨
    c.toNat = 0x2028 ∨ c.toNat = 0x2029 ∨ c.toNat = 0x202f ∨ c.toNat = 0x205f ∨
    c.toNat = 0x3000 ∨ c.toNat = 0xfeff := by
  simp only [isSepChar, isJsSpace, Bool.or_eq_true, beq_iff_eq, Bool.and_eq_true,
    decide_eq_true_eq] at h
  rcases h with h |
    ((((((((((((((h | h) | h) | h) | h) | h) | h) | h) | h) | h) | h) | h) | h) | h) | h)
  · subst h; decide
  · subst h; decide
  · subst h; decide
  · subst h; decide
  · omega
  · omega
  · subst h; decide
  · omega
  · omega
  · omega
  · omega
  · omega
  · omega
  · omega
  · omega
  · omega

/-- Numeric characterization of the JS whitespace class. -/
theorem isJsSpace_toNat {c : Char} (h : isJsSpace c = true) :
    c.toNat = 32 ∨ c.toNat = 9 ∨ c.toNat = 10 ∨ c.toNat = 11 ∨ c.toNat = 12 ∨
    c.toNat = 13 ∨ c.toNat = 0xa0 ∨ c.toNat = 0x1680 ∨ (0x2000 ≤ c.toNat ∧ c.toNat ≤ 0x200a) ∨
    c.toNat = 0x2028 ∨ c.toNat = 0x2029 ∨ c.toNat = 0x202f ∨ c.toNat = 0x205f ∨
    c.toNat = 0x3000 ∨ c.toNat = 0xfeff := by
  simp only [isJsSpace, Bool.or_eq_true, beq_iff_eq, Bool.and_eq_true, decide_eq_true_eq] at h
  rcases h with
    ((((((((((((((h | h) | h) | h) | h) | h) | h) | h) | h) | h) | h) | h) | h) | h) | h)
  · subst h; decide
  · subst h; decide
  · subst h; decide
  · omega
  · omega
  · subst h; decide
  · omega
  · omega
  · omega
  · omega
  · omega
  · omega
  · omega
  · omega
  · omega

theorem isDigitChar_toNat {c : Char} (h : isDigitChar c = true) :
    48 ≤ c.toNat ∧ c.toNat ≤ 57 := by
  simp only [isDigitChar, Char.isDigit, Bool.and_eq_true, decide_eq_true_eq] at h
  obtain ⟨h1, h2⟩ := h
  constructor
  · exact h1
  · exact h2

theorem digit_not_sep {c : Char} (h : isDigitChar c = true) : isSepChar c = false := by
  by_contra hc
  have hsep : isSepChar c = true := by
    revert hc; cases isSepChar c <;> simp
  have hd := isDigitChar_toNat h
  rcases isSepChar_toNat hsep with h2 | h2 | h2 | h2 | h2 | h2 | h2 | h2 | h2 | h2 | h2 |
    h2 | h2 | h2 | h2 | h2 <;> omega

theorem digit_not_space {c : Char} (h : isDigitChar c = true) : isJsSpace c = false := by
  by_contra hc
  have hsp : isJsSpace c = true := by
    revert hc; cases isJsSpace c <;> simp
  have hd := isDigitChar_toNat h
  rcases isJsSpace_toNat hsp with h2 | h2 | h2 | h2 | h2 | h2 | h2 | h2 | h2 | h2 | h2 |
    h2 | h2 | h2 | h2 <;> omega

theorem takeWhile_eq_self_of_all {p : Char → Bool} {l : List Char}
    (h : ∀ a ∈ l, p a = true) : l.takeWhile p = l := by
  induction l with
  | nil => rfl
  | cons x xs ih =>
    simp only [List.takeWhile_cons, h x (by simp), if_true]
    rw [ih (fun a ha => h a (by simp [ha]))]

theorem takeWhile_append_of_all {p : Char → Bool} {l1 l2 : List Char}
    (h : ∀ a ∈ l1, p a = true) : (l1 ++ l2).takeWhile p = l1 ++ l2.takeWhile p := by
  induction l1 with
  | nil => simp
  | cons x xs ih =>
    simp only [List.cons_append, List.takeWhile_cons, h x (by simp), if_true]
    rw [ih (fun a ha => h a (by simp [ha]))]

theorem dropWhile_append_of_all {p : Char → Bool} {l1 l2 : List Char}
    (h : ∀ a ∈ l1, p a = true) : (l1 ++ l2).dropWhile p = l2.dropWhile p := by
  induction l1 with
  | nil => simp
  | cons x xs ih =>
    simp only [List.cons_append, List.dropWhile_cons, h x (by simp), if_true]
    exact ih (fun a ha => h a (by simp [ha]))

theorem head?_dropWhile_false (p : Char → Bool) (l : List Char) :
    ∀ c, (l.dropWhile p).head? = some c → p c = false := by
  induction l with
  | nil => intro c hc; cases hc
  | cons x xs ih =>
    intro c hc
    rw [List.dropWhile_cons] at hc
    by_cases hp : p x = true
    · rw [if_pos hp] at hc; exact ih c hc
    · rw [if_neg hp] at hc
      simp only [List.head?_cons, Option.some.injEq] at hc
      subst hc
      simpa using hp

theorem dropWhile_eq_self_of_head {p : Char → Bool} {l : List Char}
    (h : ∀ c, l.head? = some c → p c = false) : l.dropWhile p = l := by
  cases l with
  | nil => rfl
  | cons x xs =>
    rw [List.dropWhile_cons, if_neg]
    simp [h x rfl]

theorem rdropWhile_eq_self_of_last {p : Char → Bool} {l : List Char}
    (h : ∀ c, l.getLast? = some c → p c = false) : List.rdropWhile p l = l := by
  rw [List.rdropWhile]
  rw [dropWhile_eq_self_of_head (by
    intro c hc
    rw [List.head?_reverse] at hc
    exact h c hc)]
  exact List.reverse_reverse l

theorem trimWs_eq_self {l : List Char}
    (h1 : ∀ c, l.head? = some c → isJsSpace c = false)
    (h2 : ∀ c, l.getLast? = some c → isJsSpace c = false) : trimWs l = l := by
  unfold trimWs
  rw [dropWhile_eq_self_of_head h1]
  exact rdropWhile_eq_self_of_last h2

theorem collapseWs_head (c : Char) (r : List Char) (h : isJsSpace c = false) :
    (collapseWs (c :: r)).head? = some c := by
  cases r with
  | nil => simp [collapseWs, h]
  | cons c2 rest =>
    simp only [collapseWs, h, Bool.false_and, if_false]
    simp

theorem collapseWs_ne_nil : ∀ (r : List Char) (c : Char), collapseWs (c :: r) ≠ [] := by
  intro r
  induction r with
  | nil =>
    intro c
    by_cases h : isJsSpace c = true <;> simp [collapseWs, h]
  | cons c2 rest ih =>
    intro c
    simp only [collapseWs]
    split
    · exact ih c2
    · simp

theorem collapseWs_getLast : ∀ (l : List Char) (c : Char), l.getLast? = some c →
    isJsSpace c = false → (collapseWs l).getLast? = some c := by
  intro l
  induction l with
  | nil => intro c hc; cases hc
  | cons x xs ih =>
    intro c hc hsp
    cases xs with
    | nil =>
      simp only [List.getLast?_singleton, Option.some.injEq] at hc
      subst hc
      simp [collapseWs, hsp]
    | cons c2 rest =>
      rw [List.getLast?_cons_cons] at hc
      have htail := ih c hc hsp
      simp only [collapseWs]
      split
      · exact htail
      · obtain ⟨d, ds, hds⟩ := List.exists_cons_of_ne_nil (collapseWs_ne_nil rest c2)
        rw [hds]
        rw [List.getLast?_cons_cons]
        rw [← hds]
        exact htail

theorem collapseWs_ws_is_space : ∀ (l : List Char) (c : Char), c ∈ collapseWs l →
    isJsSpace c = true → c = ' ' := by
  intro l
  induction l with
  | nil => intro c hc; cases hc
  | cons x xs ih =>
    intro c hc hsp
    cases xs with
    | nil =>
      simp only [collapseWs] at hc
      by_cases hx : isJsSpace x = true
      · rw [if_pos hx] at hc
        simpa using hc
      · rw [if_neg hx] at hc
        have : c = x := by simpa using hc
        subst this
        exact absurd hsp hx
    | cons c2 rest =>
      simp only [collapseWs] at hc
      by_cases hb : (isJsSpace x && isJsSpace c2) = true
      · rw [if_pos hb] at hc
        exact ih c hc hsp
      · rw [if_neg hb] at hc
        rcases List.mem_cons.mp hc with hc | hc
        · by_cases hx : isJsSpace x = true
          · rw [if_pos hx] at hc
            exact hc
          · rw [if_neg hx] at hc
            subst hc
            exact absurd hsp hx
        · exact ih c hc hsp

theorem collapseWs_chain : ∀ (l : List Char),
    List.Chain' (fun a b => ¬(isJsSpace a = true ∧ isJsSpace b = true)) (collapseWs l) := by
  intro l
  induction l with
  | nil => simp [collapseWs]
  | cons x xs ih =>
    cases xs with
    | nil =>
      by_cases hx : isJsSpace x = true <;> simp [collapseWs, hx]
    | cons c2 rest =>
      simp only [collapseWs]
      by_cases hb : (isJsSpace x && isJsSpace c2) = true
      · rw [if_pos hb]
        exact ih
      · rw [if_neg hb]
        rw [List.chain'_cons']
        refine ⟨?_, ih⟩
        intro y hy
        by_cases hx : isJsSpace x = true
        · have hc2 : isJsSpace c2 = false := by
            revert hb
            rw [hx]
            cases isJsSpace c2 <;> simp
          rw [collapseWs_head c2 rest hc2] at hy
          simp only [Option.mem_def, Option.some.injEq] at hy
          subst hy
          simp [hc2]
        · simp only [hx, if_false]
          intro hcon
          exact absurd hcon.1 (by simp [hx])

theorem collapseWs_eq_self : ∀ (l : List Char),
    (∀ c ∈ l, isJsSpace c = true → c = ' ') →
    List.Chain' (fun a b => ¬(isJsSpace a = true ∧ isJsSpace b = true)) l →
    collapseWs l = l := by
  intro l
  induction l with
  | nil => intro _ _; rfl
  | cons x xs ih =>
    intro hok hch
    cases xs with
    | nil =>
      by_cases hx : isJsSpace x = true
      · have : x = ' ' := hok x (by simp) hx
        subst this
        simp [collapseWs]
      · simp [collapseWs, hx]
    | cons c2 rest =>
      have hpair : ¬(isJsSpace x = true ∧ isJsSpace c2 = true) :=
        (List.chain'_cons.mp hch).1
      have hb : (isJsSpace x && isJsSpace c2) = false := by
        revert hpair
        cases isJsSpace x <;> cases isJsSpace c2 <;> simp
      have htail : collapseWs (c2 :: rest) = c2 :: rest :=
        ih (fun c hc => hok c (by simp [hc])) (List.chain'_cons.mp hch).2
      simp only [collapseWs]
      rw [if_neg (by rw [hb]; simp), htail]
      by_cases hx : isJsSpace x = true
      · have hxs : x = ' ' := hok x (by simp) hx
        rw [if_pos hx, hxs]
      · rw [if_neg hx]

theorem trimWs_head_not_space (l : List Char) :
    ∀ c, (trimWs l).head? = some c → isJsSpace c = false := by
  intro c hc
  unfold trimWs at hc
  obtain ⟨t, ht⟩ := List.rdropWhile_prefix isJsSpace (l.dropWhile isJsSpace)
  have hh : (l.dropWhile isJsSpace).head? = some c := by
    rw [← ht]
    rcases hx : List.rdropWhile isJsSpace (l.dropWhile isJsSpace) with _ | ⟨x, xs⟩
    · rw [hx] at hc; cases hc
    · rw [hx] at hc
      simp only [List.head?_cons, Option.some.injEq] at hc
      subst hc
      simp
  exact head?_dropWhile_false isJsSpace l c hh

theorem trimWs_getLast_not_space (l : List Char) :
    ∀ c, (trimWs l).getLast? = some c → isJsSpace c = false := by
  intro c hc
  unfold trimWs at hc
  have hne : List.rdropWhile isJsSpace (l.dropWhile isJsSpace) ≠ [] := by
    intro h0; rw [h0] at hc; cases hc
  have hlast := List.rdropWhile_last_not isJsSpace (l.dropWhile isJsSpace) hne
  rw [List.getLast?_eq_getLast _ hne] at hc
  simp only [Option.some.injEq] at hc
  subst hc
  simpa using hlast

theorem cleanChars_head_not_space (l : List Char) :
    ∀ c, (cleanChars l).head? = some c → isJsSpace c = false := by
  intro c hc
  unfold cleanChars at hc
  rcases hx : trimWs l with _ | ⟨x, xs⟩
  · rw [hx] at hc; cases hc
  · have hxs : isJsSpace x = false := trimWs_head_not_space l x (by rw [hx]; rfl)
    rw [hx, collapseWs_head x xs hxs] at hc
    simp only [Option.some.injEq] at hc
    subst hc
    exact hxs

theorem cleanChars_getLast_not_space (l : List Char) :
    ∀ c, (cleanChars l).getLast? = some c → isJsSpace c = false := by
  intro c hc
  unfold cleanChars at hc
  rcases hx : (trimWs l).getLast? with _ | d
  · -- trimWs l has no last element, so it is empty and cleanChars l is empty
    have : trimWs l = [] := by
      rcases hy : trimWs l with _ | ⟨y, ys⟩
      · rfl
      · rw [hy] at hx
        exact absurd hx (by simp [List.getLast?_eq_getLast])
    rw [this] at hc
    cases hc
  · have hd : isJsSpace d = false := trimWs_getLast_not_space l d hx
    rw [collapseWs_getLast (trimWs l) d hx hd] at hc
    simp only [Option.some.injEq] at hc
    subst hc
    exact hd

theorem cleanChars_ws_is_space (l : List Char) :
    ∀ c ∈ cleanChars l, isJsSpace c = true → c = ' ' := by
  intro c hc
  exact collapseWs_ws_is_space (trimWs l) c hc

theorem cleanChars_chain (l : List Char) :
    List.Chain' (fun a b => ¬(isJsSpace a = true ∧ isJsSpace b = true)) (cleanChars l) :=
  collapseWs_chain (trimWs l)

theorem cleanChars_idem (l : List Char) : cleanChars (cleanChars l) = cleanChars l := by
  have h1 : trimWs (cleanChars l) = cleanChars l :=
    trimWs_eq_self (cleanChars_head_not_space l) (cleanChars_getLast_not_space l)
  show collapseWs (trimWs (cleanChars l)) = cleanChars l
  rw [h1]
  exact collapseWs_eq_self (cleanChars l) (cleanChars_ws_is_space l) (cleanChars_chain l)

theorem matchStreetNum_pre (cs : List Char) : ∀ pre,
    matchStreetNum pre cs = (matchStreetNum [] cs).map (fun m => pre ++ m) := by
  induction cs with
  | nil => intro pre; rfl
  | cons c rest ih =>
    intro pre
    simp only [matchStreetNum, List.nil_append]
    by_cases hd : isDotChar c = true
    · rw [if_pos hd, if_pos hd]
      rcases hs : sepDigits rest with _ | consumed
      · dsimp only
        rw [ih (pre ++ [c]), ih [c]]
        rcases hm : matchStreetNum [] rest with _ | m
        · rfl
        · simp [List.append_assoc]
      · dsimp only
        simp [List.append_assoc]
    · rw [if_neg hd, if_neg hd]
      rfl

theorem matchStreetNum_shape (cs : List Char) : ∀ m, matchStreetNum [] cs = some m →
    ∃ r, cs = m ++ r ∧ m ≠ [] ∧ ∃ c, m.getLast? = some c ∧ isDigitChar c = true := by
  induction cs with
  | nil => intro m hm; cases hm
  | cons c rest ih =>
    intro m hm
    simp only [matchStreetNum] at hm
    by_cases hd : isDotChar c = true
    case neg => rw [if_neg hd] at hm; cases hm
    rw [if_pos hd] at hm
    rcases hs : sepDigits rest with _ | consumed
    · rw [hs] at hm
      have hm2 : matchStreetNum [c] rest = some m := by simpa using hm
      rw [matchStreetNum_pre rest [c]] at hm2
      rcases hmm : matchStreetNum [] rest with _ | m2
      · rw [hmm] at hm2; cases hm2
      · rw [hmm] at hm2
        have hm3 : m = c :: m2 := by
          have := hm2.symm
          simpa using this
        obtain ⟨r, hr, hne, d, hlast, hdig⟩ := ih m2 hmm
        subst hm3
        refine ⟨r, by rw [hr]; rfl, by simp, d, ?_, hdig⟩
        obtain ⟨y, ys, hys⟩ := List.exists_cons_of_ne_nil hne
        rw [hys, List.getLast?_cons_cons, ← hys]
        exact hlast
    · rw [hs] at hm
      have hm2 : m = c :: consumed := by
        have := hm.symm
        simpa using this
      simp only [sepDigits] at hs
      by_cases hcond : ((rest.takeWhile isSepChar).isEmpty ||
          ((rest.dropWhile isSepChar).takeWhile isDigitChar).isEmpty) = true
      · rw [if_pos hcond] at hs; cases hs
      · rw [if_neg hcond] at hs
        have hcons : consumed = rest.takeWhile isSepChar ++
            (rest.dropWhile isSepChar).takeWhile isDigitChar := by
          have := hs.symm
          simpa using this
        have hdne : (rest.dropWhile isSepChar).takeWhile isDigitChar ≠ [] := by
          intro h0
          apply hcond
          simp [h0]
        have hBall : ∀ a ∈ (rest.dropWhile isSepChar).takeWhile isDigitChar,
            isDigitChar a = true := fun a ha => List.mem_takeWhile_imp ha
        subst hm2
        subst hcons
        refine ⟨(rest.dropWhile isSepChar).dropWhile isDigitChar, ?_, by simp, ?_⟩
        · rw [List.cons_append, List.append_assoc, List.takeWhile_append_dropWhile,
            List.takeWhile_append_dropWhile]
        · have hlast2 := List.getLast?_eq_getLast _ hdne
          refine ⟨((rest.dropWhile isSepChar).takeWhile isDigitChar).getLast hdne, ?_, ?_⟩
          · have hcons2 : c :: (rest.takeWhile isSepChar ++
                (rest.dropWhile isSepChar).takeWhile isDigitChar) =
                [c] ++ (rest.takeWhile isSepChar ++
                (rest.dropWhile isSepChar).takeWhile isDigitChar) := rfl
            rw [hcons2, List.getLast?_append_of_ne_nil _ (by
                simp only [ne_eq, List.append_eq_nil, not_and]
                intro _ h2
                exact hdne h2),
              List.getLast?_append_of_ne_nil _ hdne]
            exact hlast2
          · exact hBall _ (List.getLast_mem hdne)

theorem digs_append_empty : ∀ (l1 l2 : List Char),
    (∃ c, l1.getLast? = some c ∧ isDigitChar c = true) →
    ((l1 ++ l2).dropWhile isSepChar).takeWhile isDigitChar = [] →
    (l1.dropWhile isSepChar).takeWhile isDigitChar = [] := by
  intro l1
  induction l1 with
  | nil => intro l2 _ _; rfl
  | cons y ys ih =>
    intro l2 hlast hemp
    rcases hlast with ⟨c, hc, hcd⟩
    by_cases hy : isSepChar y = true
    · rw [List.cons_append, List.dropWhile_cons, if_pos hy] at hemp
      rw [List.dropWhile_cons, if_pos hy]
      cases ys with
      | nil =>
        simp only [List.getLast?_singleton, Option.some.injEq] at hc
        subst hc
        rw [digit_not_sep hcd] at hy
        cases hy
      | cons z zs =>
        rw [List.getLast?_cons_cons] at hc
        exact ih l2 ⟨c, hc, hcd⟩ hemp
    · rw [List.cons_append, List.dropWhile_cons, if_neg hy] at hemp
      rw [List.dropWhile_cons, if_neg hy]
      rw [List.takeWhile_cons] at hemp ⊢
      by_cases hyd : isDigitChar y = true
      · rw [if_pos hyd] at hemp; cases hemp
      · rw [if_neg hyd]

theorem sepDigits_none_of_append (l1 l2 : List Char)
    (hlast : ∃ c, l1.getLast? = some c ∧ isDigitChar c = true)
    (h : sepDigits (l1 ++ l2) = none) : sepDigits l1 = none := by
  rcases hl : l1 with _ | ⟨y, ys⟩
  · rfl
  · subst hl
    by_cases hy : isSepChar y = true
    · have hemp : (((y :: ys) ++ l2).dropWhile isSepChar).takeWhile isDigitChar = [] := by
        by_contra hne
        simp only [sepDigits] at h
        rw [if_neg] at h
        · cases h
        · simp only [Bool.or_eq_true, List.isEmpty_iff]
          rintro (h1 | h2)
          · rw [List.cons_append, List.takeWhile_cons, if_pos hy] at h1
            cases h1
          · exact hne h2
      have hd := digs_append_empty (y :: ys) l2 hlast hemp
      simp only [sepDigits]
      rw [if_pos]
      simp only [Bool.or_eq_true, List.isEmpty_iff]
      right
      exact hd
    · simp only [sepDigits, List.takeWhile_cons, if_neg hy]
      rw [if_pos]
      simp

theorem matchStreetNum_rematch (cs : List Char) : ∀ m, matchStreetNum [] cs = some m →
    matchStreetNum [] m = some m := by
  induction cs with
  | nil => intro m hm; cases hm
  | cons c rest ih =>
    intro m hm
    simp only [matchStreetNum] at hm
    by_cases hd : isDotChar c = true
    case neg => rw [if_neg hd] at hm; cases hm
    rw [if_pos hd] at hm
    rcases hs : sepDigits rest with _ | consumed
    · rw [hs] at hm
      have hm2 : matchStreetNum [c] rest = some m := by simpa using hm
      rw [matchStreetNum_pre rest [c]] at hm2
      rcases hmm : matchStreetNum [] rest with _ | m2
      · rw [hmm] at hm2; cases hm2
      · rw [hmm] at hm2
        have hm3 : m = c :: m2 := by
          have := hm2.symm
          simpa using this
        obtain ⟨r, hr, hne, d, hlast, hdig⟩ := matchStreetNum_shape rest m2 hmm
        have hsd : sepDigits m2 = none := by
          apply sepDigits_none_of_append m2 r ⟨d, hlast, hdig⟩
          rw [← hr]
          exact hs
        have hre := ih m2 hmm
        subst hm3
        simp only [matchStreetNum, if_pos hd, hsd]
        have hfin : matchStreetNum [c] m2 = some (c :: m2) := by
          rw [matchStreetNum_pre m2 [c], hre]
          rfl
        simpa using hfin
    · rw [hs] at hm
      have hm2 : m = c :: consumed := by
        have := hm.symm
        simpa using this
      simp only [sepDigits] at hs
      by_cases hcond : ((rest.takeWhile isSepChar).isEmpty ||
          ((rest.dropWhile isSepChar).takeWhile isDigitChar).isEmpty) = true
      · rw [if_pos hcond] at hs; cases hs
      · rw [if_neg hcond] at hs
        have hcons : consumed = rest.takeWhile isSepChar ++
            (rest.dropWhile isSepChar).takeWhile isDigitChar := by
          have := hs.symm
          simpa using this
        have hsne : rest.takeWhile isSepChar ≠ [] := by
          intro h0
          apply hcond
          simp [h0]
        have hdne : (rest.dropWhile isSepChar).takeWhile isDigitChar ≠ [] := by
          intro h0
          apply hcond
          simp [h0]
        have hAall : ∀ a ∈ rest.takeWhile isSepChar, isSepChar a = true :=
          fun a ha => List.mem_takeWhile_imp ha
        have hBall : ∀ a ∈ (rest.dropWhile isSepChar).takeWhile isDigitChar,
            isDigitChar a = true := fun a ha => List.mem_takeWhile_imp ha
        subst hm2
        subst hcons
        simp only [matchStreetNum, if_pos hd]
        obtain ⟨b, bs, hB⟩ := List.exists_cons_of_ne_nil hdne
        have hbd : isDigitChar b = true := hBall b (by rw [hB]; simp)
        have hsd : sepDigits (rest.takeWhile isSepChar ++
            (rest.dropWhile isSepChar).takeWhile isDigitChar) =
            some (rest.takeWhile isSepChar ++
              (rest.dropWhile isSepChar).takeWhile isDigitChar) := by
          simp only [sepDigits]
          rw [takeWhile_append_of_all hAall, dropWhile_append_of_all hAall]
          have htw : ((rest.dropWhile isSepChar).takeWhile isDigitChar).takeWhile
              isSepChar = [] := by
            rw [hB, List.takeWhile_cons, if_neg]
            rw [digit_not_sep hbd]
            simp
          have hdw : ((rest.dropWhile isSepChar).takeWhile isDigitChar).dropWhile
              isSepChar = (rest.dropWhile isSepChar).takeWhile isDigitChar := by
            apply dropWhile_eq_self_of_head
            intro e he
            rw [hB] at he
            simp only [List.head?_cons, Option.some.injEq] at he
            subst he
            exact digit_not_sep hbd
          rw [htw, hdw, takeWhile_eq_self_of_all hBall]
          rw [if_neg]
          · simp
          · simp only [Bool.or_eq_true, List.isEmpty_iff]
            rintro (h1 | h2)
            · exact hsne (by simpa using h1)
            · exact hdne h2
        rw [hsd]
        simp

theorem normalizeAddress_data (X : List Char) :
    normalizeAddress (String.mk X) =
      match matchStreetNum [] (cleanChars X) with
      | some m => String.mk (trimWs m)
      | none => String.mk (cleanChars X) := by
  unfold normalizeAddress
  rw [String_data_mk]

/-- C5: `normalizeAddress` is idempotent.  A matched "street + number"
prefix of the cleaned address starts with its first character (never
whitespace, since the input was trimmed), ends with a digit, inherits
the single-space discipline of the cleaned string, and re-matches to
itself, so a second application changes nothing; when no match is
found, the cleaned string is returned and cleaning is idempotent. -/
theorem normalizeAddress_idem (a : String) :
    normalizeAddress (normalizeAddress a) = normalizeAddress a := by
  rcases hm : matchStreetNum [] (cleanChars a.data) with _ | m
  · have h1 : normalizeAddress a = String.mk (cleanChars a.data) := by
      have h := normalizeAddress_data a.data
      rw [hm] at h
      exact h
    rw [h1, normalizeAddress_data, cleanChars_idem, hm]
  · have h1 : normalizeAddress a = String.mk (trimWs m) := by
      have h := normalizeAddress_data a.data
      rw [hm] at h
      exact h
    obtain ⟨r, hcs, hmne, d, hlast, hdig⟩ := matchStreetNum_shape _ m hm
    have hheadm : ∀ e, m.head? = some e → isJsSpace e = false := by
      intro e he
      apply cleanChars_head_not_space a.data
      rw [hcs]
      obtain ⟨x, m2, hx⟩ := List.exists_cons_of_ne_nil hmne
      rw [hx] at he
      simp only [List.head?_cons, Option.some.injEq] at he
      subst he
      rw [hx]
      rfl
    have hlastm : ∀ e, m.getLast? = some e → isJsSpace e = false := by
      intro e he
      rw [hlast] at he
      simp only [Option.some.injEq] at he
      subst he
      exact digit_not_space hdig
    have htm : trimWs m = m := trimWs_eq_self hheadm hlastm
    have hWs : ∀ e ∈ m, isJsSpace e = true → e = ' ' := by
      intro e hem
      apply cleanChars_ws_is_space a.data
      rw [hcs]
      exact List.mem_append_left r hem
    have hAdj : List.Chain' (fun x y => ¬(isJsSpace x = true ∧ isJsSpace y = true)) m := by
      have h := cleanChars_chain a.data
      rw [hcs] at h
      exact (List.chain'_append.mp h).1
    have hcm : cleanChars m = m := by
      show collapseWs (trimWs m) = m
      rw [htm]
      exact collapseWs_eq_self m hWs hAdj
    have hrematch := matchStreetNum_rematch _ m hm
    rw [h1, htm, normalizeAddress_data, hcm, hrematch]
    show String.mk (trimWs m) = String.mk m
    rw [htm]
